import Mathlib

/-!
# Verification of the toronto-permit-pulse frontend and orchestrator spec

Shallow embedding of the intake wizard, the streaming wizard variant, the
results dashboard (all from `src/frontend/src/app/components/`), and — for the
orchestrator parts that exist only as a specification — models built from the
spec text (each such definition is marked `Modelled from the spec:`).
-/

/-! ## String helpers (JS `String.prototype.includes` / `toLowerCase`) -/

/-- JS `haystack.includes(needle)` on strings viewed as character lists. -/
def hasSub : List Char → List Char → Bool
  | h, n =>
    if n.isPrefixOf h then true
    else
      match h with
      | [] => false
      | _ :: t => hasSub t n

/-- JS `str.includes(sub)`. -/
def strIncludes (hay sub : String) : Bool :=
  hasSub hay.toList sub.toList

/-- JS `str.toLowerCase()` (ASCII, which covers every keyword compared). -/
def jsToLower (s : String) : String :=
  String.mk (s.toList.map Char.toLower)

deriving instance DecidableEq for Except

/-! ## C1 — Session state machine and citation binding

Modelled from the spec: the orchestrator (Session State Machine §4.4 and
Citation Guardrail §4.3) is backend code that is not present under `src/`;
only the client-facing result shapes (`Citation`, `PipelineResult` in
`ResultsDashboard.tsx`) are. The states and the guard on the `COMPLETE`
transition follow §4.4: "`COMPLETE` is reachable only when all items are
either audited-pass or exhausted-revision-flagged and all Citations are
bound". -/

/-- Modelled from the spec: lifecycle states of a Session (§4.4). -/
inductive SessionState
  | INTAKE | INGESTING | ANALYZING | CLARIFYING | AUDITING | REVISING
  | DRAFTING | COMPLETE | ERROR
deriving DecidableEq, Repr

/-- Modelled from the spec: a candidate regulatory reference (§3 Citation),
carrying the client-facing fields of the `Citation` interface in
`ResultsDashboard.tsx` (bylaw, section key, version) plus the `bound` flag
the Citation Guardrail sets once the reference resolves in the corpus. -/
structure OrchCitation where
  bylaw : String
  sectionKey : String
  version : String
  bound : Bool
deriving DecidableEq, Repr

/-- Modelled from the spec: a Session as the state machine sees it — its
lifecycle state and the Citations accumulated into its output. -/
structure OrchSession where
  state : SessionState
  output : List OrchCitation
deriving DecidableEq, Repr

/-- Client-facing citation shape (`Citation` in `ResultsDashboard.tsx`). -/
structure ClientCitation where
  bylaw : String
  sectionKey : String
  version : String
deriving DecidableEq, Repr

/-- Erasure of a validated orchestrator Citation to the client-facing shape
delivered in `PipelineResult.results[].response.citations`. -/
def toClientCitation (c : OrchCitation) : ClientCitation :=
  ⟨c.bylaw, c.sectionKey, c.version⟩

/-- Modelled from the spec: the transition relation of §4.4,
`INTAKE → INGESTING → ANALYZING ⇄ CLARIFYING → AUDITING ⇄ REVISING →
DRAFTING → COMPLETE`, with `ERROR` reachable from any non-terminal state.
Intermediate transitions may rewrite the accumulated output arbitrarily;
the transition into `COMPLETE` is guarded by all Citations being bound. -/
inductive SessionStep : OrchSession → OrchSession → Prop
  | ingest (out out2 : List OrchCitation) :
      SessionStep ⟨.INTAKE, out⟩ ⟨.INGESTING, out2⟩
  | analyze (out out2 : List OrchCitation) :
      SessionStep ⟨.INGESTING, out⟩ ⟨.ANALYZING, out2⟩
  | clarify (out out2 : List OrchCitation) :
      SessionStep ⟨.ANALYZING, out⟩ ⟨.CLARIFYING, out2⟩
  | resume (out out2 : List OrchCitation) :
      SessionStep ⟨.CLARIFYING, out⟩ ⟨.ANALYZING, out2⟩
  | audit (out out2 : List OrchCitation) :
      SessionStep ⟨.ANALYZING, out⟩ ⟨.AUDITING, out2⟩
  | revise (out out2 : List OrchCitation) :
      SessionStep ⟨.AUDITING, out⟩ ⟨.REVISING, out2⟩
  | reaudit (out out2 : List OrchCitation) :
      SessionStep ⟨.REVISING, out⟩ ⟨.AUDITING, out2⟩
  | draft (out out2 : List OrchCitation) :
      SessionStep ⟨.AUDITING, out⟩ ⟨.DRAFTING, out2⟩
  | finish (out : List OrchCitation) (hbound : ∀ c ∈ out, c.bound = true) :
      SessionStep ⟨.DRAFTING, out⟩ ⟨.COMPLETE, out⟩
  | fail (s : SessionState) (out : List OrchCitation)
      (hs : s ≠ .COMPLETE ∧ s ≠ .ERROR) :
      SessionStep ⟨s, out⟩ ⟨.ERROR, out⟩

/-- A Session run starts in `INTAKE` with empty output and evolves by
`SessionStep` transitions. -/
def SessionReachable (s : OrchSession) : Prop :=
  Relation.ReflTransGen SessionStep ⟨.INTAKE, []⟩ s

/-- Concrete run witnessing `session_complete_all_citations_bound`: an
explicit transition chain ending `COMPLETE` with one bound citation. -/
def demoCitation : OrchCitation :=
  ⟨"569-2013", "150.8.60.1", "2023-05", true⟩

/-! ## C2 — Execution Graph Scheduler: topological leveling into tiers

Modelled from the spec: the Execution Graph Scheduler (§4.1) is backend code
that is not present under `src/`. §4.1: "given a Session and the full
StepSpec set, compute a partition into tiers such that tier k contains
exactly the Steps whose declared dependencies are all in tiers < k (standard
topological leveling; cycles in StepSpec dependencies are a build-time
configuration error ... the scheduler fails fast if one is detected before
any execution begins)". -/

/-- Modelled from the spec: a StepSpec (§3) — identifier and declared set of
upstream Step identifiers. -/
structure StepSpec where
  id : Nat
  deps : List Nat
deriving DecidableEq, Repr

/-- A step is ready once every declared dependency has been placed. -/
def readySpec (done : List Nat) (s : StepSpec) : Bool :=
  s.deps.all (fun d => done.contains d)

/-- Modelled from the spec: one leveling round per unit of fuel; each round
takes every remaining step whose dependencies are all already placed as the
next tier, and fails fast when no step is ready while steps remain. -/
def tiersAux : Nat → List Nat → List StepSpec → Except String (List (List StepSpec))
  | 0, _, remaining =>
      if remaining.isEmpty then .ok [] else .error "dependency cycle detected"
  | fuel + 1, done, remaining =>
      if remaining.isEmpty then .ok []
      else if (remaining.filter (readySpec done)).isEmpty then
        .error "dependency cycle detected"
      else
        match tiersAux fuel
            (done ++ (remaining.filter (readySpec done)).map (fun s => s.id))
            (remaining.filter (fun s => ! readySpec done s)) with
        | .ok rest => .ok (remaining.filter (readySpec done) :: rest)
        | .error e => .error e

/-- Modelled from the spec: the scheduler's tier computation over the full
StepSpec set. -/
def computeTiers (specs : List StepSpec) : Except String (List (List StepSpec)) :=
  tiersAux specs.length [] specs

/-- Step identifiers that actually begin executing: tier order when leveling
succeeds, and none at all when the scheduler fails fast. -/
def executedSteps (specs : List StepSpec) : List Nat :=
  match computeTiers specs with
  | .ok tiers => tiers.flatten.map (fun s => s.id)
  | .error _ => []

/-- Identifiers of all steps placed in tiers strictly below `k`. -/
def tierIdsUpTo (tiers : List (List StepSpec)) (k : Nat) : List Nat :=
  ((tiers.take k).flatten).map (fun s => s.id)

/-- A dependency cycle: a nonempty set of steps, drawn from the spec set,
each of which depends on another member of the set. -/
def HasCycle (specs : List StepSpec) : Prop :=
  ∃ S : List StepSpec, S ≠ [] ∧ (∀ s ∈ S, s ∈ specs) ∧
    ∀ s ∈ S, ∃ t ∈ S, t.id ∈ s.deps

/-- Steps for the witness run: the 3-Step DAG of §8 Scenario A (A→C, B→C)
plus an independent root. -/
def demoSpecs : List StepSpec :=
  [⟨0, []⟩, ⟨1, []⟩, ⟨2, [0, 1]⟩, ⟨3, [2]⟩]

/-! ## Frontend data model — streaming wizard variant
(`IntakeWizard` embedded in `ResultsDashboard.tsx`, second component) -/

/-- A selected file as the wizard sees it (`File`: name, size in bytes). -/
structure FileData where
  name : String
  size : Nat
deriving DecidableEq, Repr

/-- Payload of an `item` stream event. -/
structure ItemInfo where
  index : Nat
  total : Nat
  category : String
  action : String
deriving DecidableEq, Repr

/-- Fields a parsed SSE event payload may carry; each handler branch reads
the fields relevant to its event kind, mirroring the dynamic JS payload. -/
structure EventPayload where
  stage : String
  percent : Nat
  description : String
  item : ItemInfo
  delay : Nat
  message : String
  result : String
deriving DecidableEq, Repr

/-- The React state of the streaming wizard component. `delivered` records
the payloads handed to `onPipelineComplete`. -/
structure WizardState where
  step : Nat
  address : String
  suiteType : String
  lanewayAbutment : String
  preApprovedPlan : String
  sessionId : Option String
  isSubmitting : Bool
  uploadFile : Option FileData
  uploadStatus : Option String
  activeStage : Option String
  progressPercent : Nat
  progressDesc : String
  currentItem : Option ItemInfo
  error : Option String
  recaptchaToken : Option String
  delivered : List String
deriving DecidableEq, Repr

/-- The initial `useState` values of the streaming wizard. -/
def initWizard : WizardState :=
  { step := 1, address := "", suiteType := "", lanewayAbutment := "",
    preApprovedPlan := "", sessionId := none, isSubmitting := false,
    uploadFile := none, uploadStatus := none, activeStage := none,
    progressPercent := 0, progressDesc := "", currentItem := none,
    error := none, recaptchaToken := none, delivered := [] }

/-- Keyword list of former municipalities (streaming wizard `isLegacy`). -/
def legacyKeywords : List String :=
  ["etobicoke", "north york", "scarborough", "york", "east york"]

/-- Postal-code exclusion substrings (streaming wizard `isLegacy`). -/
def exclusionPostalCodes : List String := ["m5r", "m5s", "m4w"]

/-- Laneway exclusion-area substrings (streaming wizard `isLegacy`). -/
def exclusionAreas : List String :=
  ["annex", "yorkville", "rosedale", "summerhill",
   "waterfront", "railway lands", "liberty village", "the beach"]

/-- `isLegacy` of the streaming wizard variant: keyword municipalities, then
postal-code exclusions, then (for LANEWAY only) named exclusion areas. -/
def isLegacyStream (address suiteType : String) : Bool :=
  let addr := jsToLower address
  if legacyKeywords.any (fun k => strIncludes addr k) then true
  else if exclusionPostalCodes.any (fun pc => strIncludes addr pc) then true
  else if suiteType = "LANEWAY" && exclusionAreas.any (fun a => strIncludes addr a)
    then true
  else false

/-- Keyword list of `IntakeWizard.tsx` (`legacyMunicipalities`). -/
def legacyMunicipalities : List String :=
  ["etobicoke", "north york", "scarborough", "york", "east york"]

/-- `isLegacy` of `IntakeWizard.tsx`: keyword municipalities only. -/
def isLegacyIW (address : String) : Bool :=
  legacyMunicipalities.any (fun m => strIncludes (jsToLower address) m)

/-- `nextStep` of `IntakeWizard.tsx`: a no-op at step 1 for a legacy
address, otherwise advance one step. -/
def nextStepIW (step : Nat) (legacy : Bool) : Nat :=
  if step = 1 ∧ legacy then step else step + 1

/-- The `disabled` expression of the Next Step button:
`!address || isLegacy || (step === 2 && !suiteType)`. -/
def nextDisabled (s : WizardState) : Bool :=
  s.address = "" || isLegacyStream s.address s.suiteType
    || (s.step == 2 && s.suiteType = "")

/-! ### SSE stream consumption (streaming `handleRunPipeline`) -/

/-- The progress text shown for a `retry` event:
"⏳ Rate limited — retrying in {delay}s…" (delay already whole seconds). -/
def retryMessage (delay : Nat) : String :=
  "⏳ Rate limited — retrying in " ++ toString delay ++ "s…"

/-- One branch of the stream reader: dispatch on the event kind string,
returning the updated state or (for an `error` event) the thrown message.
Unknown kinds fall through and leave the state unchanged. -/
def handleEvent (s : WizardState) (kind : String) (p : EventPayload) :
    Except String WizardState :=
  if kind = "progress" then
    .ok { s with activeStage := some p.stage, progressPercent := p.percent,
                 progressDesc := p.description }
  else if kind = "item" then
    .ok { s with currentItem := some p.item }
  else if kind = "retry" then
    .ok { s with progressDesc := retryMessage p.delay }
  else if kind = "complete" then
    .ok { s with uploadStatus := some "complete", currentItem := none,
                 delivered := s.delivered ++ [p.result] }
  else if kind = "error" then
    .error p.message
  else
    .ok s

/-- Consume parsed events in order; a thrown `error` event aborts the loop,
returning the state reached so far together with the thrown message. -/
def processEvents (s : WizardState) :
    List (String × EventPayload) → WizardState × Option String
  | [] => (s, none)
  | (k, p) :: rest =>
    match handleEvent s k p with
    | .ok s1 => processEvents s1 rest
    | .error m => (s, some m)

/-- State updates performed before the fetch: submit flags, cleared error
and progress, and the `upload` stage activated. -/
def startState (s : WizardState) : WizardState :=
  { s with isSubmitting := true, error := none, progressPercent := 0,
           progressDesc := "", currentItem := none,
           activeStage := some "upload" }

/-- The catch block of the streaming `handleRunPipeline`: record the message,
clear the active stage and current item, and reset the reCAPTCHA. -/
def failState (s : WizardState) (msg : String) : WizardState :=
  { s with error := some msg, activeStage := none, currentItem := none,
           recaptchaToken := none }

/-- Side effects the wizard can emit towards the outside world. -/
inductive WizEmit
  | sessionStart (id : String)
  | pipelineRequest (address suiteType : String) (file : FileData)
deriving DecidableEq, Repr

/-- Outcome of the try/catch around the fetch and stream loop: on an ok
response consume the events (applying the catch block to a thrown `error`
event); on a non-ok response apply the catch block to the thrown detail. -/
def finishRun (s0 : WizardState) (resOk : Bool) (errDetail : String)
    (events : List (String × EventPayload)) : WizardState :=
  if resOk then
    match processEvents s0 events with
    | (s1, none) => s1
    | (s1, some m) => failState s1 m
  else failState s0 errDetail

/-- The streaming `handleRunPipeline`: guard on a selected file, a suite
type, and (when a site key is configured) a reCAPTCHA token; then issue the
`POST /api/v1/pipeline/stream` request and consume the SSE stream, with the
catch block applied on a non-ok response or a thrown `error` event, and
`isSubmitting` reset in `finally`. -/
def runPipelineStream (siteKey : String) (s : WizardState) (resOk : Bool)
    (errDetail : String) (events : List (String × EventPayload)) :
    WizardState × List WizEmit :=
  match s.uploadFile with
  | none => (s, [])
  | some f =>
    if s.suiteType = "" then (s, [])
    else if s.recaptchaToken = none ∧ siteKey ≠ "" then
      ({ s with error := some "Please complete the reCAPTCHA verification." }, [])
    else
      ({ finishRun (startState s) resOk errDetail events with
          isSubmitting := false },
       [.pipelineRequest s.address s.suiteType f])

/-- The file input `onChange` handler of the streaming wizard: reject files
over 10 MiB with an error and no stored file; otherwise store the file and
clear status and error. -/
def handleFileSelect (s : WizardState) (f : FileData) : WizardState :=
  if f.size > 10 * 1024 * 1024 then
    { s with error := some "File too large. Maximum size is 10MB.",
             uploadFile := none }
  else
    { s with uploadFile := some f, uploadStatus := none, error := none }

/-- User/UI actions on the streaming wizard. Input handlers are only
reachable while their widget is rendered (address at step 1, suite buttons
at step 2, detail fields at step 3, upload controls at step 4). -/
inductive WizAction
  | setAddress (a : String)
  | setSuite (t : String)
  | setAbutment (v : String)
  | setPlan (v : String)
  | setToken (t : String)
  | clickNext
  | clickBack
  | clickProceed (id : String)
  | selectFile (f : FileData)
  | runPipe (resOk : Bool) (errDetail : String)
      (events : List (String × EventPayload))
deriving DecidableEq

/-- One UI step of the streaming wizard: each action is guarded by the
rendering/enabled conditions of its widget, and `clickNext` additionally by
the `nextStep` legacy check. -/
def wizStep (siteKey : String) (s : WizardState) :
    WizAction → WizardState × List WizEmit
  | .setAddress a =>
      if s.step = 1 then ({ s with address := a }, []) else (s, [])
  | .setSuite t =>
      if s.step = 2 ∧ (t = "GARDEN" ∨ t = "LANEWAY") then
        ({ s with suiteType := t }, [])
      else (s, [])
  | .setAbutment v =>
      if s.step = 3 ∧ s.suiteType = "LANEWAY" then
        ({ s with lanewayAbutment := v }, [])
      else (s, [])
  | .setPlan v =>
      if s.step = 3 then ({ s with preApprovedPlan := v }, []) else (s, [])
  | .setToken t =>
      if s.step = 4 then ({ s with recaptchaToken := some t }, []) else (s, [])
  | .clickNext =>
      if s.step < 3 ∧ nextDisabled s = false then
        (if s.step = 1 ∧ isLegacyStream s.address s.suiteType = true then s
         else { s with step := s.step + 1 }, [])
      else (s, [])
  | .clickBack =>
      if 1 < s.step ∧ s.step < 4 then ({ s with step := s.step - 1 }, [])
      else (s, [])
  | .clickProceed id =>
      if s.step = 3 then
        ({ s with sessionId := some id, step := 4 }, [.sessionStart id])
      else (s, [])
  | .selectFile f =>
      if s.step = 4 then (handleFileSelect s f, []) else (s, [])
  | .runPipe resOk errDetail events =>
      if s.step = 4 then runPipelineStream siteKey s resOk errDetail events
      else (s, [])

/-- States of the streaming wizard reachable from its initial render. -/
def WizReachable (siteKey : String) (s : WizardState) : Prop :=
  Relation.ReflTransGen
    (fun a b => ∃ act, (wizStep siteKey a act).1 = b) initWizard s

/-! ## Frontend data model — `IntakeWizard.tsx` (non-streaming variant) -/

/-- `PIPELINE_STAGES` of `IntakeWizard.tsx`. -/
def PIPELINE_STAGES : List (String × String) :=
  [("upload", "Uploading PDF"), ("parse", "Parsing Notice (Gemini Vision)"),
   ("analyze", "Analyzing Deficiencies"), ("draft", "Drafting Responses")]

/-- JS `Array.prototype.findIndex` over the stage list: the index of the
first stage with the given key, `-1` when absent. -/
def jsFindIndex (l : List (String × String)) (key : String) : Int :=
  match l.findIdx? (fun st => st.1 = key) with
  | some i => (i : Int)
  | none => -1

/-- The checklist rendering: `isDone = i < stageIdx` for the stage at
index `i` given the currently active stage key. -/
def stageIsDone (l : List (String × String)) (i : Nat) (activeStage : String) :
    Bool :=
  (i : Int) < jsFindIndex l activeStage

/-- React state of `IntakeWizard.tsx` relevant to its pipeline run. -/
structure IWState where
  step : Nat
  address : String
  suiteType : String
  lanewayAbutment : String
  isSubmitting : Bool
  uploadFile : Option FileData
  uploadStatus : Option String
  activeStage : Option String
  error : Option String
  delivered : List String
deriving DecidableEq, Repr

/-- `handleRunPipeline` of `IntakeWizard.tsx`: guard on file and suite type,
activate the stages `upload`, `parse`, `analyze`, `draft` in that fixed
order around the single `POST /api/v1/pipeline/run`, then either hand the
result to `onPipelineComplete` or (non-ok response) set the error and clear
the active stage. The second component is the successive values assigned to
`activeStage` during the run. -/
def iwRunPipeline (s : IWState) (resOk : Bool) (detail : String)
    (payload : String) : IWState × List (Option String) :=
  match s.uploadFile with
  | none => (s, [])
  | some _ =>
    if s.suiteType = "" then (s, [])
    else
      let s0 := { s with isSubmitting := true, error := none }
      let trace : List (Option String) :=
        [some "upload", some "parse", some "analyze", some "draft"]
      if resOk then
        ({ s0 with activeStage := some "draft",
                   uploadStatus := some "complete",
                   delivered := s0.delivered ++ [payload],
                   isSubmitting := false }, trace)
      else
        ({ s0 with activeStage := none, error := some detail,
                   isSubmitting := false }, trace ++ [none])

/-! ## Frontend data model — `ResultsDashboard` component -/

/-- React state of the dashboard around PDF export. -/
structure DashboardState where
  isDownloading : Bool
  downloadError : Option String
  showDisclaimer : Bool
  disclaimerAcknowledged : Bool
deriving DecidableEq, Repr

/-- Initial dashboard state. -/
def initDashboard : DashboardState :=
  { isDownloading := false, downloadError := none, showDisclaimer := false,
    disclaimerAcknowledged := false }

/-- `handleDownloadPDF`: issues exactly one `POST /api/v1/export/pdf`
request (counted in the second component) and records a failure detail on a
non-ok response. -/
def handleDownloadPDF (s : DashboardState) (resOk : Bool) (detail : String) :
    DashboardState × Nat :=
  let s1 := { s with isDownloading := true, downloadError := none }
  let s2 := if resOk then s1 else { s1 with downloadError := some detail }
  ({ s2 with isDownloading := false }, 1)

/-- `handleDownloadClick`: export directly when the disclaimer has been
acknowledged, otherwise open the disclaimer modal without any request. -/
def handleDownloadClick (s : DashboardState) (resOk : Bool) (detail : String) :
    DashboardState × Nat :=
  if s.disclaimerAcknowledged then handleDownloadPDF s resOk detail
  else ({ s with showDisclaimer := true }, 0)

/-- `handleDisclaimerAccept`: set the acknowledgement flag, close the modal,
and export. -/
def handleDisclaimerAccept (s : DashboardState) (resOk : Bool)
    (detail : String) : DashboardState × Nat :=
  handleDownloadPDF
    { s with disclaimerAcknowledged := true, showDisclaimer := false }
    resOk detail

/-- Closing the modal via Cancel or the backdrop. -/
def handleDisclaimerCancel (s : DashboardState) : DashboardState × Nat :=
  ({ s with showDisclaimer := false }, 0)

/-- User actions on the dashboard export flow. -/
inductive DashAction
  | download (resOk : Bool) (detail : String)
  | accept (resOk : Bool) (detail : String)
  | cancel
deriving DecidableEq

/-- One dashboard step; modal buttons fire only while the modal is shown. -/
def dashStep (s : DashboardState) : DashAction → DashboardState × Nat
  | .download r d => handleDownloadClick s r d
  | .accept r d =>
      if s.showDisclaimer then handleDisclaimerAccept s r d else (s, 0)
  | .cancel =>
      if s.showDisclaimer then handleDisclaimerCancel s else (s, 0)

/-! ## Event-kind inventories (spec §6 versus the stream reader) -/

/-- The six event kinds of the spec's progress/event boundary (§6). -/
def specEventKinds : List String :=
  ["tier-started", "step-progress", "clarification-requested",
   "step-audit-failed", "complete", "error"]

/-- The event kinds the streaming wizard's reader dispatches on. -/
def handledKinds : List String :=
  ["progress", "item", "retry", "complete", "error"]

/-! ## Demo values used by counterexamples and witnesses -/

/-- A concrete parsed event payload. -/
def demoPayload : EventPayload :=
  { stage := "parse", percent := 40, description := "Parsing notice",
    item := ⟨1, 3, "ZONING", "increase setback"⟩, delay := 4,
    message := "boom", result := "resultJson" }

/-- A concrete selected file within the size limit. -/
def demoFile : FileData := ⟨"notice.pdf", 2048⟩

/-- A streaming-wizard state at the upload step, ready to run. -/
def demoReadyWizard : WizardState :=
  { initWizard with
    step := 4, address := "21 King St", suiteType := "GARDEN",
    uploadFile := some demoFile, recaptchaToken := some "tok" }

/-- A concrete `IntakeWizard.tsx` state ready to run the pipeline. -/
def demoIW : IWState :=
  { step := 4, address := "21 King St", suiteType := "GARDEN",
    lanewayAbutment := "", isSubmitting := false,
    uploadFile := some demoFile, uploadStatus := none, activeStage := none,
    error := none, delivered := [] }

/-- Intermediate states of a concrete non-legacy wizard run. -/
def wizAfterAddress : WizardState := { initWizard with address := "21 King St" }

def wizAtStep2 : WizardState := { wizAfterAddress with step := 2 }

def wizAtStep2Garden : WizardState := { wizAtStep2 with suiteType := "GARDEN" }

def wizAtStep3 : WizardState := { wizAtStep2Garden with step := 3 }

lemma sessionStep_complete_target {a b : OrchSession} (h : SessionStep a b)
    (hb : b.state = .COMPLETE) : ∀ c ∈ b.output, c.bound = true := by
  cases h <;> simp_all

/-- **C1** — For every Session that reaches the `COMPLETE` terminal state,
every Citation in its output is bound; a Session never transitions into
`COMPLETE` while an unbound Citation remains, and in the client-facing
result shape every delivered citation is the erasure of a bound
(corpus-validated) Citation. -/
theorem session_complete_all_citations_bound (s : OrchSession)
    (hreach : SessionReachable s) (hc : s.state = .COMPLETE) :
    (∀ c ∈ s.output, c.bound = true) ∧
    (∀ d ∈ s.output.map toClientCitation,
      ∃ c ∈ s.output, c.bound = true ∧ toClientCitation c = d) := by
  have hbound : ∀ c ∈ s.output, c.bound = true := by
    induction hreach with
    | refl => simp [SessionState.COMPLETE] at hc
    | tail _ hstep ih => exact sessionStep_complete_target hstep hc
  refine ⟨hbound, ?_⟩
  intro d hd
  rcases List.mem_map.mp hd with ⟨c, hc1, hc2⟩
  exact ⟨c, hc1, hbound c hc1, hc2⟩

lemma demoSessionReachable :
    SessionReachable ⟨.COMPLETE, [demoCitation]⟩ := by
  have h1 : SessionStep ⟨.INTAKE, []⟩ ⟨.INGESTING, []⟩ := .ingest _ _
  have h2 : SessionStep ⟨.INGESTING, []⟩ ⟨.ANALYZING, []⟩ := .analyze _ _
  have h3 : SessionStep ⟨.ANALYZING, []⟩ ⟨.AUDITING, []⟩ := .audit _ _
  have h4 : SessionStep ⟨.AUDITING, []⟩ ⟨.DRAFTING, [demoCitation]⟩ := .draft _ _
  have h5 : SessionStep ⟨.DRAFTING, [demoCitation]⟩ ⟨.COMPLETE, [demoCitation]⟩ :=
    .finish _ (by intro c hc; simp at hc; subst hc; rfl)
  exact Relation.ReflTransGen.tail
    (Relation.ReflTransGen.tail
      (Relation.ReflTransGen.tail
        (Relation.ReflTransGen.tail
          (Relation.ReflTransGen.tail Relation.ReflTransGen.refl h1) h2) h3) h4) h5

theorem session_complete_all_citations_bound_witness :
    (∀ c ∈ ([demoCitation] : List OrchCitation), c.bound = true) ∧
    (∀ d ∈ ([demoCitation] : List OrchCitation).map toClientCitation,
      ∃ c ∈ ([demoCitation] : List OrchCitation),
        c.bound = true ∧ toClientCitation c = d) :=
  session_complete_all_citations_bound ⟨.COMPLETE, [demoCitation]⟩
    demoSessionReachable rfl

lemma tiersAux_perm :
    ∀ (fuel : Nat) (done : List Nat) (remaining : List StepSpec)
      (tiers : List (List StepSpec)),
      tiersAux fuel done remaining = .ok tiers → tiers.flatten.Perm remaining := by
  intro fuel
  induction fuel with
  | zero =>
    intro done remaining tiers h
    simp only [tiersAux] at h
    split at h
    · next he =>
      cases h
      simp only [List.isEmpty_iff] at he
      simp [he]
    · cases h
  | succ n ih =>
    intro done remaining tiers h
    simp only [tiersAux] at h
    split at h
    · next he =>
      cases h
      simp only [List.isEmpty_iff] at he
      simp [he]
    · split at h
      · cases h
      · split at h
        · next rest hrest =>
          cases h
          have hperm := ih _ _ _ hrest
          have h1 : List.Perm
              (remaining.filter (readySpec done) ++ rest.flatten)
              (remaining.filter (readySpec done)
                ++ remaining.filter (fun s => ! readySpec done s)) :=
            hperm.append_left _
          have h2 := List.filter_append_perm (readySpec done) remaining
          rw [List.flatten_cons]
          exact h1.trans h2
        · cases h

lemma tiersAux_deps_earlier :
    ∀ (fuel : Nat) (done : List Nat) (remaining : List StepSpec)
      (tiers : List (List StepSpec)),
      tiersAux fuel done remaining = .ok tiers →
      ∀ k s, s ∈ tiers.getD k [] → ∀ d ∈ s.deps,
        d ∈ done ∨ d ∈ tierIdsUpTo tiers k := by
  intro fuel
  induction fuel with
  | zero =>
    intro done remaining tiers h k s hs
    simp only [tiersAux] at h
    split at h
    · cases h; simp at hs
    · cases h
  | succ n ih =>
    intro done remaining tiers h k s hs d hd
    simp only [tiersAux] at h
    split at h
    · cases h; simp at hs
    · split at h
      · cases h
      · split at h
        · next rest hrest =>
          cases h
          cases k with
          | zero =>
            simp only [List.getD_cons_zero] at hs
            have hready : readySpec done s = true := (List.mem_filter.mp hs).2
            have := (List.all_eq_true.mp hready) d hd
            exact Or.inl (by simpa using this)
          | succ k =>
            simp only [List.getD_cons_succ] at hs
            rcases ih _ _ _ hrest k s hs d hd with hdone | hup
            · rcases List.mem_append.mp hdone with h1 | h2
              · exact Or.inl h1
              · refine Or.inr ?_
                simp only [tierIdsUpTo, List.take_succ_cons, List.flatten_cons,
                  List.map_append, List.mem_append]
                exact Or.inl h2
            · refine Or.inr ?_
              simp only [tierIdsUpTo, List.take_succ_cons, List.flatten_cons,
                List.map_append, List.mem_append]
              exact Or.inr hup
        · cases h

lemma mem_getD_mem_flatten {tiers : List (List StepSpec)} {k : Nat} {s : StepSpec}
    (h : s ∈ tiers.getD k []) : s ∈ tiers.flatten := by
  induction tiers generalizing k with
  | nil => simp [List.getD] at h
  | cons t ts ih =>
    cases k with
    | zero =>
      simp only [List.getD_cons_zero] at h
      rw [List.flatten_cons, List.mem_append]
      exact Or.inl h
    | succ k =>
      simp only [List.getD_cons_succ] at h
      rw [List.flatten_cons, List.mem_append]
      exact Or.inr (ih h)

lemma mem_flatten_exists_getD {tiers : List (List StepSpec)} {s : StepSpec}
    (h : s ∈ tiers.flatten) : ∃ k, s ∈ tiers.getD k [] := by
  induction tiers with
  | nil => simp at h
  | cons t ts ih =>
    rw [List.flatten_cons, List.mem_append] at h
    rcases h with h1 | h2
    · exact ⟨0, by simpa using h1⟩
    · rcases ih h2 with ⟨k, hk⟩
      exact ⟨k + 1, by simpa using hk⟩

lemma mem_take_flatten_exists_getD {tiers : List (List StepSpec)} {k : Nat}
    {s : StepSpec} (h : s ∈ (tiers.take k).flatten) :
    ∃ j, j < k ∧ s ∈ tiers.getD j [] := by
  induction tiers generalizing k with
  | nil =>
    rw [List.take_nil] at h
    simp at h
  | cons t ts ih =>
    cases k with
    | zero => simp at h
    | succ k =>
      rw [List.take_succ_cons, List.flatten_cons, List.mem_append] at h
      rcases h with h1 | h2
      · exact ⟨0, Nat.succ_pos _, by simpa using h1⟩
      · rcases ih h2 with ⟨j, hj1, hj2⟩
        exact ⟨j + 1, Nat.succ_lt_succ hj1, by simpa using hj2⟩

lemma nodup_getD_unique {tiers : List (List StepSpec)}
    (hnd : tiers.flatten.Nodup) {s : StepSpec} {i j : Nat}
    (hi : s ∈ tiers.getD i []) (hj : s ∈ tiers.getD j []) : i = j := by
  induction tiers generalizing i j with
  | nil => simp [List.getD] at hi
  | cons t ts ih =>
    rw [List.flatten_cons, List.nodup_append] at hnd
    obtain ⟨-, hnd2, hdisj⟩ := hnd
    cases i with
    | zero =>
      cases j with
      | zero => rfl
      | succ j =>
        simp only [List.getD_cons_zero] at hi
        simp only [List.getD_cons_succ] at hj
        exact absurd (mem_getD_mem_flatten hj) (fun hc => hdisj hi hc)
    | succ i =>
      cases j with
      | zero =>
        simp only [List.getD_cons_succ] at hi
        simp only [List.getD_cons_zero] at hj
        exact absurd (mem_getD_mem_flatten hi) (fun hc => hdisj hj hc)
      | succ j =>
        simp only [List.getD_cons_succ] at hi hj
        exact congrArg Nat.succ (ih hnd2 hi hj)

lemma tiersAux_min :
    ∀ (fuel : Nat) (done : List Nat) (remaining : List StepSpec)
      (tiers : List (List StepSpec)),
      tiersAux fuel done remaining = .ok tiers →
      ∀ k s, s ∈ tiers.getD (k + 1) [] →
        ∃ d ∈ s.deps, d ∉ done ∧ d ∉ tierIdsUpTo tiers k := by
  intro fuel
  induction fuel with
  | zero =>
    intro done remaining tiers h k s hs
    simp only [tiersAux] at h
    split at h
    · cases h; simp at hs
    · cases h
  | succ n ih =>
    intro done remaining tiers h k s hs
    simp only [tiersAux] at h
    split at h
    · cases h; simp at hs
    · split at h
      · cases h
      · split at h
        · next rest hrest =>
          cases h
          cases k with
          | zero =>
            simp only [List.getD_cons_succ] at hs
            have hfl : s ∈ rest.flatten := mem_getD_mem_flatten hs
            have hmem : s ∈ remaining.filter (fun s => ! readySpec done s) :=
              (tiersAux_perm _ _ _ _ hrest).mem_iff.mp hfl
            have hnr : readySpec done s = false := by
              have := (List.mem_filter.mp hmem).2
              simpa using this
            have : ∃ d ∈ s.deps, d ∉ done := by
              by_contra hcon
              push_neg at hcon
              have : readySpec done s = true := by
                simp only [readySpec, List.all_eq_true]
                intro d hd
                simpa using hcon d hd
              simp [this] at hnr
            rcases this with ⟨d, hd1, hd2⟩
            exact ⟨d, hd1, hd2, by simp [tierIdsUpTo]⟩
          | succ k =>
            simp only [List.getD_cons_succ] at hs
            rcases ih _ _ _ hrest k s hs with ⟨d, hd1, hd2, hd3⟩
            refine ⟨d, hd1, fun hc => hd2 (List.mem_append.mpr (Or.inl hc)), ?_⟩
            intro hc
            simp only [tierIdsUpTo, List.take_succ_cons, List.flatten_cons,
              List.map_append, List.mem_append] at hc
            rcases hc with hc | hc
            · exact hd2 (List.mem_append.mpr (Or.inr hc))
            · exact hd3 hc
        · cases h

lemma dep_tier_lt {tiers : List (List StepSpec)}
    (hndid : (tiers.flatten.map (fun s => s.id)).Nodup)
    (hdeps : ∀ k s, s ∈ tiers.getD k [] → ∀ d ∈ s.deps, d ∈ tierIdsUpTo tiers k)
    {s t : StepSpec} {k j : Nat} (hs : s ∈ tiers.getD k [])
    (ht : t ∈ tiers.getD j []) (hdep : t.id ∈ s.deps) : j < k := by
  have hmem : t.id ∈ tierIdsUpTo tiers k := hdeps k s hs t.id hdep
  rcases List.mem_map.mp hmem with ⟨u, hu, huid⟩
  rcases mem_take_flatten_exists_getD hu with ⟨j2, hj2k, hj2⟩
  have hu_fl : u ∈ tiers.flatten := mem_getD_mem_flatten hj2
  have ht_fl : t ∈ tiers.flatten := mem_getD_mem_flatten ht
  have hut : u = t := List.inj_on_of_nodup_map hndid hu_fl ht_fl huid
  subst hut
  have hnd : tiers.flatten.Nodup := List.Nodup.of_map _ hndid
  have := nodup_getD_unique hnd hj2 ht
  omega

lemma no_cycle_of_ok {specs : List StepSpec} {tiers : List (List StepSpec)}
    (hids : (specs.map (fun s => s.id)).Nodup)
    (hok : computeTiers specs = .ok tiers) : ¬ HasCycle specs := by
  rintro ⟨S, hSne, hSsub, hSdep⟩
  have hperm := tiersAux_perm _ _ _ _ hok
  have hdeps0 := tiersAux_deps_earlier _ _ _ _ hok
  have hdeps : ∀ k s, s ∈ tiers.getD k [] → ∀ d ∈ s.deps,
      d ∈ tierIdsUpTo tiers k := by
    intro k s hs d hd
    rcases hdeps0 k s hs d hd with h | h
    · simp at h
    · exact h
  have hpermid : (tiers.flatten.map (fun s => s.id)).Perm
      (specs.map (fun s => s.id)) := hperm.map _
  have hndid : (tiers.flatten.map (fun s => s.id)).Nodup :=
    hpermid.symm.nodup hids
  have hmem_fl : ∀ s ∈ S, s ∈ tiers.flatten :=
    fun s hs => hperm.mem_iff.mpr (hSsub s hs)
  have key : ∀ n, ∀ s ∈ S, ∀ k, s ∈ tiers.getD k [] → k < n → False := by
    intro n
    induction n with
    | zero => intro s _ k _ hk; omega
    | succ n ih =>
      intro s hsS k hk hkn
      obtain ⟨t, htS, htdep⟩ := hSdep s hsS
      obtain ⟨j, hj⟩ := mem_flatten_exists_getD (hmem_fl t htS)
      have hjk : j < k := dep_tier_lt hndid hdeps hk hj htdep
      exact ih t htS j hj (by omega)
  obtain ⟨s, hsS⟩ := List.exists_mem_of_ne_nil S hSne
  obtain ⟨k, hk⟩ := mem_flatten_exists_getD (hmem_fl s hsS)
  exact key (k + 1) s hsS k hk (Nat.lt_succ_self k)

/-- **C2** — The scheduler partitions the Steps into tiers by topological
leveling: on success the tiers' contents are exactly the given StepSpecs
(as a permutation, each appearing in a unique tier), every Step in tier `k`
has all its declared dependencies in tiers `< k`, and every Step in a tier
`k + 1` has some dependency outside tiers `< k` (so it sits in the least
admissible tier); if the StepSpec dependency graph contains a cycle, the
scheduler fails fast with an error and no Step begins executing. -/
theorem scheduler_tiers_correct (specs : List StepSpec)
    (hids : (specs.map (fun s => s.id)).Nodup) :
    (∀ tiers, computeTiers specs = .ok tiers →
      tiers.flatten.Perm specs ∧
      (∀ k s, s ∈ tiers.getD k [] → ∀ d ∈ s.deps, d ∈ tierIdsUpTo tiers k) ∧
      (∀ k s, s ∈ tiers.getD (k + 1) [] →
        ∃ d ∈ s.deps, d ∉ tierIdsUpTo tiers k) ∧
      (∀ i j s, s ∈ tiers.getD i [] → s ∈ tiers.getD j [] → i = j)) ∧
    (HasCycle specs →
      ∃ e, computeTiers specs = .error e ∧ executedSteps specs = []) := by
  constructor
  · intro tiers hok
    have hperm := tiersAux_perm _ _ _ _ hok
    refine ⟨hperm, ?_, ?_, ?_⟩
    · intro k s hs d hd
      rcases tiersAux_deps_earlier _ _ _ _ hok k s hs d hd with h | h
      · simp at h
      · exact h
    · intro k s hs
      rcases tiersAux_min _ _ _ _ hok k s hs with ⟨d, hd1, _, hd3⟩
      exact ⟨d, hd1, hd3⟩
    · intro i j s hi hj
      have hnd : tiers.flatten.Nodup := by
        have : (tiers.flatten.map (fun s => s.id)).Perm
            (specs.map (fun s => s.id)) := hperm.map _
        exact List.Nodup.of_map _ (this.symm.nodup hids)
      exact nodup_getD_unique hnd hi hj
  · intro hcyc
    cases hres : computeTiers specs with
    | ok tiers => exact absurd hcyc (no_cycle_of_ok hids hres)
    | error e =>
      refine ⟨e, rfl, ?_⟩
      simp [executedSteps, hres]

theorem scheduler_tiers_correct_witness :
    (demoSpecs.map (fun s => s.id)).Nodup ∧
    ((∀ tiers, computeTiers demoSpecs = .ok tiers →
      tiers.flatten.Perm demoSpecs ∧
      (∀ k s, s ∈ tiers.getD k [] → ∀ d ∈ s.deps, d ∈ tierIdsUpTo tiers k) ∧
      (∀ k s, s ∈ tiers.getD (k + 1) [] →
        ∃ d ∈ s.deps, d ∉ tierIdsUpTo tiers k) ∧
      (∀ i j s, s ∈ tiers.getD i [] → s ∈ tiers.getD j [] → i = j)) ∧
    (HasCycle demoSpecs →
      ∃ e, computeTiers demoSpecs = .error e ∧ executedSteps demoSpecs = [])) :=
  ⟨by decide, scheduler_tiers_correct demoSpecs (by decide)⟩

/-! ## C3 — event kinds the stream reader acts on -/

/-- **C3 (counterexample)** — The claim that every event the client's stream
reader acts on has one of the six spec kinds is false: the reader acts on a
`progress` event (it changes the client state), yet `progress` is not among
`tier-started`, `step-progress`, `clarification-requested`,
`step-audit-failed`, `complete`, `error`. -/
theorem stream_kinds_claim_false :
    (handleEvent initWizard "progress" demoPayload
      ≠ .ok initWizard) ∧ "progress" ∉ specEventKinds := by
  decide

/-- **C3 (amended)** — The streaming wizard's reader dispatches on exactly
the wire kinds `progress`, `item`, `retry`, `complete`, `error`: every
event that changes the client state (or aborts) has its kind among these
five, and events of any other kind leave the state unchanged. -/
theorem stream_reader_acts_only_on_wire_kinds (s : WizardState)
    (kind : String) (p : EventPayload)
    (hact : handleEvent s kind p ≠ .ok s) : kind ∈ handledKinds := by
  by_contra hk
  simp only [handledKinds, List.mem_cons, List.not_mem_nil, or_false] at hk
  push_neg at hk
  obtain ⟨h1, h2, h3, h4, h5⟩ := hk
  exact hact (by simp [handleEvent, h1, h2, h3, h4, h5])

theorem stream_reader_acts_only_on_wire_kinds_witness :
    (handleEvent initWizard "error" demoPayload ≠ .ok initWizard) ∧
    "error" ∈ handledKinds :=
  ⟨by decide,
   stream_reader_acts_only_on_wire_kinds initWizard "error" demoPayload
     (by decide)⟩

/-! ## C4 — failures put the run into a terminal error state -/

lemma handleEvent_ok_of_ne_error {s : WizardState} {k : String}
    {p : EventPayload} (hk : k ≠ "error") :
    ∃ t, handleEvent s k p = .ok t := by
  unfold handleEvent
  by_cases h1 : k = "progress"
  · simp [h1]
  by_cases h2 : k = "item"
  · simp [h1, h2]
  by_cases h3 : k = "retry"
  · simp [h1, h2, h3]
  by_cases h4 : k = "complete"
  · simp [h1, h2, h3, h4]
  simp [h1, h2, h3, h4, hk]

lemma processEvents_append_error {pre : List (String × EventPayload)}
    (hpre : ∀ e ∈ pre, e.1 ≠ "error") (s : WizardState) (p : EventPayload)
    (post : List (String × EventPayload)) :
    processEvents s (pre ++ ("error", p) :: post)
      = ((processEvents s pre).1, some p.message) := by
  induction pre generalizing s with
  | nil => simp [processEvents, handleEvent]
  | cons e rest ih =>
    obtain ⟨k, q⟩ := e
    have hk : k ≠ "error" := hpre (k, q) (List.mem_cons_self _ _)
    obtain ⟨t, ht⟩ := handleEvent_ok_of_ne_error (s := s) (p := q) hk
    have hrest : ∀ e ∈ rest, e.1 ≠ "error" :=
      fun e he => hpre e (List.mem_cons_of_mem _ he)
    simp only [List.cons_append, processEvents, ht]
    exact ih hrest t

/-- **C4** — Whenever the first failure of a pipeline run occurs — a non-ok
HTTP response, or an `error`-kind event after an error-free prefix of the
stream — the streaming wizard ends in an error state carrying that first
failure's reason (`failState` sets `error := some msg`), clears the active
stage and current item, and processes nothing further: the result is
independent of any events after the failure. -/
theorem pipeline_error_terminal (siteKey : String) (s : WizardState)
    (f : FileData) (detail : String)
    (hf : s.uploadFile = some f) (hsuite : s.suiteType ≠ "")
    (hcap : ¬(s.recaptchaToken = none ∧ siteKey ≠ "")) :
    (∀ events,
      runPipelineStream siteKey s false detail events
        = ({ failState (startState s) detail with isSubmitting := false },
           [.pipelineRequest s.address s.suiteType f])) ∧
    (∀ pre p post, (∀ e ∈ pre, e.1 ≠ "error") →
      runPipelineStream siteKey s true detail (pre ++ ("error", p) :: post)
        = ({ failState (processEvents (startState s) pre).1 p.message with
              isSubmitting := false },
           [.pipelineRequest s.address s.suiteType f])) ∧
    (∀ st msg, (failState st msg).error = some msg ∧
      (failState st msg).activeStage = none ∧
      (failState st msg).currentItem = none) := by
  refine ⟨?_, ?_, ?_⟩
  · intro events
    simp [runPipelineStream, finishRun, hf, hsuite, hcap]
  · intro pre p post hpre
    have hproc := processEvents_append_error hpre (startState s) p post
    simp [runPipelineStream, finishRun, hf, hsuite, hcap, hproc]
  · intro st msg
    exact ⟨rfl, rfl, rfl⟩

theorem pipeline_error_terminal_witness :
    (demoReadyWizard.uploadFile = some demoFile ∧
     demoReadyWizard.suiteType ≠ "" ∧
     ¬(demoReadyWizard.recaptchaToken = none ∧ ("" : String) ≠ "")) ∧
    runPipelineStream "" demoReadyWizard false "HTTP 500" []
      = ({ failState (startState demoReadyWizard) "HTTP 500" with
            isSubmitting := false },
         [.pipelineRequest demoReadyWizard.address demoReadyWizard.suiteType
            demoFile]) :=
  ⟨⟨rfl, by decide, by decide⟩,
   (pipeline_error_terminal "" demoReadyWizard demoFile "HTTP 500" rfl
      (by decide) (by decide)).1 []⟩

/-! ## C5 — retry events only touch the progress description -/

/-- **C5** — A `retry`-kind event (rate-limit backoff notification) updates
only the progress description text: the handler returns `.ok` (no abort, no
error state) on a state identical to the input except for `progressDesc`. -/
theorem retry_event_only_updates_description (s : WizardState)
    (p : EventPayload) :
    handleEvent s "retry" p
      = .ok { s with progressDesc := retryMessage p.delay } := by
  rfl

/-! ## C6 — progress handling is idempotent -/

/-- **C6** — The stream consumer tolerates at-least-once delivery of
progress events: consuming the same `progress` event twice in succession
yields exactly the state of consuming it once (the handler assigns stage,
percent and description from the payload with no accumulation). -/
theorem progress_event_idempotent (s : WizardState) (p : EventPayload) :
    processEvents s [("progress", p), ("progress", p)]
      = processEvents s [("progress", p)] := by
  rfl

/-! ## C7 — stage order and checklist dependency closure -/

/-- **C7** — `IntakeWizard.tsx` activates the pipeline stages in the fixed
order `upload`, `parse`, `analyze`, `draft` (the non-`null` values assigned
to `activeStage` during a run are exactly the stage keys in order), the
checklist marks the stage at index `i` done exactly when `i` is strictly
below the index of the active stage, and hence every stage shown complete
has all earlier stages shown complete. -/
theorem stage_checklist_dependency_closure :
    (∀ s detail payload f, s.uploadFile = some f → s.suiteType ≠ "" →
      (iwRunPipeline s true detail payload).2.filterMap id
          = PIPELINE_STAGES.map Prod.fst ∧
      (iwRunPipeline s false detail payload).2.filterMap id
          = PIPELINE_STAGES.map Prod.fst) ∧
    (∀ i a, stageIsDone PIPELINE_STAGES i a = true ↔
      (i : Int) < jsFindIndex PIPELINE_STAGES a) ∧
    (∀ i j a, j ≤ i → stageIsDone PIPELINE_STAGES i a = true →
      stageIsDone PIPELINE_STAGES j a = true) := by
  refine ⟨?_, ?_, ?_⟩
  · intro s detail payload f hf hsuite
    constructor <;> simp [iwRunPipeline, hf, hsuite, PIPELINE_STAGES]
  · intro i a
    simp [stageIsDone]
  · intro i j a hji hi
    simp only [stageIsDone, decide_eq_true_eq] at hi ⊢
    have : (j : Int) ≤ (i : Int) := Int.ofNat_le.mpr hji
    omega

theorem stage_checklist_dependency_closure_witness :
    ((iwRunPipeline demoIW true "d" "r").2.filterMap id
        = PIPELINE_STAGES.map Prod.fst) ∧
    (1 ≤ 2 ∧ stageIsDone PIPELINE_STAGES 2 "draft" = true ∧
      stageIsDone PIPELINE_STAGES 1 "draft" = true) :=
  ⟨(stage_checklist_dependency_closure.1 demoIW "d" "r" demoFile rfl
      (by decide)).1,
   by decide, by decide,
   stage_checklist_dependency_closure.2.2 2 1 "draft" (by decide) (by decide)⟩

/-! ## C8 — legacy addresses never progress past step 1 -/

lemma isLegacyStream_of_keyword {addr st k : String}
    (hk : k ∈ legacyKeywords) (hinc : strIncludes (jsToLower addr) k = true) :
    isLegacyStream addr st = true := by
  have hany : legacyKeywords.any (fun x => strIncludes (jsToLower addr) x)
      = true := List.any_eq_true.mpr ⟨k, hk, hinc⟩
  simp [isLegacyStream, hany]

lemma isLegacyStream_of_postal {addr st pc : String}
    (hpc : pc ∈ exclusionPostalCodes)
    (hinc : strIncludes (jsToLower addr) pc = true) :
    isLegacyStream addr st = true := by
  have hany : exclusionPostalCodes.any (fun x => strIncludes (jsToLower addr) x)
      = true := List.any_eq_true.mpr ⟨pc, hpc, hinc⟩
  by_cases hkw : legacyKeywords.any (fun x => strIncludes (jsToLower addr) x)
      = true
  · simp [isLegacyStream, hkw]
  · simp [isLegacyStream, hkw, hany]

lemma isLegacyStream_of_area {addr a : String} (ha : a ∈ exclusionAreas)
    (hinc : strIncludes (jsToLower addr) a = true) :
    isLegacyStream addr "LANEWAY" = true := by
  have hany : exclusionAreas.any (fun x => strIncludes (jsToLower addr) x)
      = true := List.any_eq_true.mpr ⟨a, ha, hinc⟩
  by_cases hkw : legacyKeywords.any (fun x => strIncludes (jsToLower addr) x)
      = true
  · simp [isLegacyStream, hkw]
  · by_cases hpo : exclusionPostalCodes.any
        (fun x => strIncludes (jsToLower addr) x) = true
    · simp [isLegacyStream, hkw, hpo]
    · simp [isLegacyStream, hkw, hpo, hany]

lemma isLegacyIW_of_keyword {addr m : String}
    (hm : m ∈ legacyMunicipalities)
    (hinc : strIncludes (jsToLower addr) m = true) :
    isLegacyIW addr = true := by
  exact List.any_eq_true.mpr ⟨m, hm, hinc⟩

lemma nextDisabled_of_legacy {s : WizardState}
    (hleg : isLegacyStream s.address s.suiteType = true) :
    nextDisabled s = true := by
  simp [nextDisabled, hleg]

lemma handleEvent_preserves {s t : WizardState} {k : String} {p : EventPayload}
    (h : handleEvent s k p = .ok t) :
    t.address = s.address ∧ t.suiteType = s.suiteType ∧ t.step = s.step := by
  unfold handleEvent at h
  split_ifs at h <;> injection h with h2 <;> subst h2 <;> exact ⟨rfl, rfl, rfl⟩

lemma processEvents_preserves (events : List (String × EventPayload)) :
    ∀ s : WizardState,
      (processEvents s events).1.address = s.address ∧
      (processEvents s events).1.suiteType = s.suiteType ∧
      (processEvents s events).1.step = s.step := by
  induction events with
  | nil => intro s; exact ⟨rfl, rfl, rfl⟩
  | cons e rest ih =>
    intro s
    obtain ⟨k, p⟩ := e
    simp only [processEvents]
    cases heq : handleEvent s k p with
    | ok t =>
      have hp := handleEvent_preserves heq
      have hr := ih t
      exact ⟨hr.1.trans hp.1, hr.2.1.trans hp.2.1, hr.2.2.trans hp.2.2⟩
    | error m => exact ⟨rfl, rfl, rfl⟩

lemma handleFileSelect_preserves (s : WizardState) (f : FileData) :
    (handleFileSelect s f).address = s.address ∧
    (handleFileSelect s f).suiteType = s.suiteType ∧
    (handleFileSelect s f).step = s.step := by
  unfold handleFileSelect
  split <;> exact ⟨rfl, rfl, rfl⟩

lemma finishRun_preserves (s0 : WizardState) (resOk : Bool)
    (errDetail : String) (events : List (String × EventPayload)) :
    (finishRun s0 resOk errDetail events).address = s0.address ∧
    (finishRun s0 resOk errDetail events).suiteType = s0.suiteType ∧
    (finishRun s0 resOk errDetail events).step = s0.step := by
  unfold finishRun
  cases resOk with
  | false => exact ⟨rfl, rfl, rfl⟩
  | true =>
    rcases hpe : processEvents s0 events with ⟨s1, om⟩
    have hp := processEvents_preserves events s0
    rw [hpe] at hp
    cases om with
    | none => exact ⟨hp.1, hp.2.1, hp.2.2⟩
    | some m => exact ⟨hp.1, hp.2.1, hp.2.2⟩

lemma runPipelineStream_preserves (siteKey : String) (s : WizardState)
    (resOk : Bool) (errDetail : String)
    (events : List (String × EventPayload)) :
    (runPipelineStream siteKey s resOk errDetail events).1.address = s.address ∧
    (runPipelineStream siteKey s resOk errDetail events).1.suiteType
      = s.suiteType ∧
    (runPipelineStream siteKey s resOk errDetail events).1.step = s.step := by
  have hp := finishRun_preserves (startState s) resOk errDetail events
  refine ⟨?_, ?_, ?_⟩ <;>
    (unfold runPipelineStream
     split
     · rfl
     · split_ifs with h1 h2
       · rfl
       · rfl
       · first
         | exact hp.1
         | exact hp.2.1
         | exact hp.2.2)

lemma wizStep_preserves_nonlegacy (siteKey : String) (s : WizardState)
    (act : WizAction)
    (hs : s.step ≥ 3 → isLegacyStream s.address s.suiteType = false) :
    (wizStep siteKey s act).1.step ≥ 3 →
      isLegacyStream (wizStep siteKey s act).1.address
        (wizStep siteKey s act).1.suiteType = false := by
  cases act with
  | setAddress a =>
    by_cases h1 : s.step = 1
    · intro h3; simp [wizStep, h1] at h3
    · simpa [wizStep, h1] using hs
  | setSuite t =>
    by_cases hg : s.step = 2 ∧ (t = "GARDEN" ∨ t = "LANEWAY")
    · intro h3; simp [wizStep, hg] at h3
    · simpa [wizStep, hg] using hs
  | setAbutment v =>
    by_cases hg : s.step = 3 ∧ s.suiteType = "LANEWAY"
    · intro _; simpa [wizStep, hg] using hs (by omega)
    · simpa [wizStep, hg] using hs
  | setPlan v =>
    by_cases hg : s.step = 3
    · intro _; simpa [wizStep, hg] using hs (by omega)
    · simpa [wizStep, hg] using hs
  | setToken t =>
    by_cases hg : s.step = 4
    · intro _; simpa [wizStep, hg] using hs (by omega)
    · simpa [wizStep, hg] using hs
  | clickNext =>
    by_cases hg : s.step < 3 ∧ nextDisabled s = false
    · by_cases hl : s.step = 1 ∧ isLegacyStream s.address s.suiteType = true
      · simp [wizStep, hg, hl]
      · intro h3
        have hnd : nextDisabled s = false := hg.2
        have hnl : isLegacyStream s.address s.suiteType = false := by
          by_contra hc
          have hx : isLegacyStream s.address s.suiteType = true := by
            revert hc; cases isLegacyStream s.address s.suiteType <;> simp
          rw [nextDisabled_of_legacy hx] at hnd
          cases hnd
        simpa [wizStep, hg, hl] using hnl
    · simpa [wizStep, hg] using hs
  | clickBack =>
    by_cases hg : 1 < s.step ∧ s.step < 4
    · intro h3
      have : s.step - 1 ≥ 3 := by simpa [wizStep, hg] using h3
      omega
    · simpa [wizStep, hg] using hs
  | clickProceed id =>
    by_cases hg : s.step = 3
    · intro _; simpa [wizStep, hg] using hs (by omega)
    · simpa [wizStep, hg] using hs
  | selectFile f =>
    by_cases hg : s.step = 4
    · intro h3
      have hs4 := hs (by omega)
      have hp := handleFileSelect_preserves s f
      simp only [wizStep, if_pos hg]
      rw [hp.1, hp.2.1]
      exact hs4
    · simpa [wizStep, hg] using hs
  | runPipe r d evs =>
    by_cases hg : s.step = 4
    · intro h3
      have hp := runPipelineStream_preserves siteKey s r d evs
      simp only [wizStep, if_pos hg]
      rw [hp.1, hp.2.1]
      exact hs (by omega)
    · simpa [wizStep, hg] using hs

lemma wizReachable_nonlegacy (siteKey : String) (s : WizardState)
    (h : WizReachable siteKey s) :
    s.step ≥ 3 → isLegacyStream s.address s.suiteType = false := by
  induction h with
  | refl => intro h3; simp [initWizard] at h3
  | tail hgen hstep ih =>
    obtain ⟨act, hact⟩ := hstep
    subst hact
    exact wizStep_preserves_nonlegacy siteKey _ act ih

lemma wizStep_emit_nonlegacy (siteKey : String) (s : WizardState)
    (act : WizAction)
    (hinv : s.step ≥ 3 → isLegacyStream s.address s.suiteType = false)
    (hne : (wizStep siteKey s act).2 ≠ []) :
    isLegacyStream s.address s.suiteType = false := by
  cases act with
  | clickProceed id =>
    by_cases hg : s.step = 3
    · exact hinv (by omega)
    · simp [wizStep, hg] at hne
  | runPipe r d evs =>
    by_cases hg : s.step = 4
    · exact hinv (by omega)
    · simp [wizStep, hg] at hne
  | setAddress a => revert hne; simp only [wizStep]; split <;> simp
  | setSuite t => revert hne; simp only [wizStep]; split <;> simp
  | setAbutment v => revert hne; simp only [wizStep]; split <;> simp
  | setPlan v => revert hne; simp only [wizStep]; split <;> simp
  | setToken t => revert hne; simp only [wizStep]; split <;> simp
  | clickNext => revert hne; simp only [wizStep]; split <;> simp
  | clickBack => revert hne; simp only [wizStep]; split <;> simp
  | selectFile f => revert hne; simp only [wizStep]; split <;> simp

/-- **C8** — Legacy-address lockout: an address whose lowercase form
contains a former-municipality keyword (and, in the streaming variant, a
postal-code exclusion, or — for LANEWAY — an exclusion-area name) is
classified legacy; while that holds, `nextStep` at step 1 is a no-op and
the Next button at steps 1 and 2 is disabled, so the wizard never leaves
step 1 for a legacy address: every reachable state at step 3 or beyond has
a non-legacy address, and every emitted session start or pipeline request
originates from a non-legacy state. -/
theorem legacy_address_never_reaches_pipeline (siteKey : String) :
    (∀ addr st k, k ∈ legacyKeywords →
      strIncludes (jsToLower addr) k = true → isLegacyStream addr st = true) ∧
    (∀ addr st pc, pc ∈ exclusionPostalCodes →
      strIncludes (jsToLower addr) pc = true → isLegacyStream addr st = true) ∧
    (∀ addr a, a ∈ exclusionAreas →
      strIncludes (jsToLower addr) a = true →
      isLegacyStream addr "LANEWAY" = true) ∧
    (∀ addr m, m ∈ legacyMunicipalities →
      strIncludes (jsToLower addr) m = true → isLegacyIW addr = true) ∧
    (∀ legacy, legacy = true → nextStepIW 1 legacy = 1) ∧
    (∀ s : WizardState, isLegacyStream s.address s.suiteType = true →
      nextDisabled s = true) ∧
    (∀ s : WizardState, s.step = 1 →
      isLegacyStream s.address s.suiteType = true →
      (wizStep siteKey s .clickNext).1 = s) ∧
    (∀ s : WizardState, WizReachable siteKey s → s.step ≥ 3 →
      isLegacyStream s.address s.suiteType = false) ∧
    (∀ (s : WizardState) (act : WizAction), WizReachable siteKey s →
      (wizStep siteKey s act).2 ≠ [] →
      isLegacyStream s.address s.suiteType = false) := by
  refine ⟨?_, ?_, ?_, ?_, ?_, ?_, ?_, ?_, ?_⟩
  · intro addr st k hk hinc
    exact isLegacyStream_of_keyword hk hinc
  · intro addr st pc hpc hinc
    exact isLegacyStream_of_postal hpc hinc
  · intro addr a ha hinc
    exact isLegacyStream_of_area ha hinc
  · intro addr m hm hinc
    exact isLegacyIW_of_keyword hm hinc
  · intro legacy h
    subst h
    simp [nextStepIW]
  · intro s hleg
    exact nextDisabled_of_legacy hleg
  · intro s h1 hleg
    have hnd := nextDisabled_of_legacy hleg
    simp [wizStep, hnd]
  · intro s hr h3
    exact wizReachable_nonlegacy siteKey s hr h3
  · intro s act hr hne
    exact wizStep_emit_nonlegacy siteKey s act
      (wizReachable_nonlegacy siteKey s hr) hne

lemma demoWizReachable : WizReachable "" wizAtStep3 := by
  have s1 : (wizStep "" initWizard (.setAddress "21 King St")).1
      = wizAfterAddress := by decide
  have s2 : (wizStep "" wizAfterAddress .clickNext).1 = wizAtStep2 := by decide
  have s3 : (wizStep "" wizAtStep2 (.setSuite "GARDEN")).1
      = wizAtStep2Garden := by decide
  have s4 : (wizStep "" wizAtStep2Garden .clickNext).1 = wizAtStep3 := by
    decide
  exact Relation.ReflTransGen.tail
    (Relation.ReflTransGen.tail
      (Relation.ReflTransGen.tail
        (Relation.ReflTransGen.tail Relation.ReflTransGen.refl ⟨_, s1⟩)
        ⟨_, s2⟩)
      ⟨_, s3⟩)
    ⟨_, s4⟩

theorem legacy_address_never_reaches_pipeline_witness :
    ("etobicoke" ∈ legacyKeywords ∧
     strIncludes (jsToLower "12 Etobicoke Rd") "etobicoke" = true ∧
     isLegacyStream "12 Etobicoke Rd" "GARDEN" = true) ∧
    nextStepIW 1 true = 1 ∧
    (wizAtStep3.step ≥ 3 ∧
     isLegacyStream wizAtStep3.address wizAtStep3.suiteType = false) :=
  ⟨⟨by decide, by decide,
    (legacy_address_never_reaches_pipeline "").1 "12 Etobicoke Rd" "GARDEN"
      "etobicoke" (by decide) (by decide)⟩,
   (legacy_address_never_reaches_pipeline "").2.2.2.2.1 true rfl,
   ⟨by decide,
    (legacy_address_never_reaches_pipeline "").2.2.2.2.2.2.2.1 wizAtStep3
      demoWizReachable (by decide)⟩⟩

/-! ## C9 — PDF export gated on the liability disclaimer -/

/-- **C9** — A Download click with the acknowledgement flag false opens the
disclaimer modal and issues no export request; accepting the modal sets the
flag, closes the modal, and issues exactly one export; once the flag is
true every Download click issues exactly one export without reopening the
modal; and any dashboard action that issues an export leaves the flag
acknowledged. -/
theorem export_gated_on_disclaimer :
    (∀ (s : DashboardState) r d, s.disclaimerAcknowledged = false →
      handleDownloadClick s r d = ({ s with showDisclaimer := true }, 0)) ∧
    (∀ (s : DashboardState) r d,
      (handleDisclaimerAccept s r d).1.disclaimerAcknowledged = true ∧
      (handleDisclaimerAccept s r d).1.showDisclaimer = false ∧
      (handleDisclaimerAccept s r d).2 = 1) ∧
    (∀ (s : DashboardState) r d, s.disclaimerAcknowledged = true →
      (handleDownloadClick s r d).2 = 1 ∧
      (handleDownloadClick s r d).1.showDisclaimer = s.showDisclaimer ∧
      (handleDownloadClick s r d).1.disclaimerAcknowledged = true) ∧
    (∀ (s : DashboardState) (a : DashAction), 0 < (dashStep s a).2 →
      (dashStep s a).1.disclaimerAcknowledged = true) := by
  refine ⟨?_, ?_, ?_, ?_⟩
  · intro s r d h
    simp [handleDownloadClick, h]
  · intro s r d
    cases r <;> exact ⟨rfl, rfl, rfl⟩
  · intro s r d h
    simp only [handleDownloadClick, if_pos h]
    cases r <;> exact ⟨rfl, rfl, h⟩
  · intro s a h
    cases a with
    | download r d =>
      by_cases hack : s.disclaimerAcknowledged = true
      · simp only [dashStep, handleDownloadClick, if_pos hack] at h ⊢
        cases r <;> exact hack
      · simp [dashStep, handleDownloadClick, hack] at h
    | accept r d =>
      by_cases hshow : s.showDisclaimer = true
      · simp only [dashStep, if_pos hshow] at h ⊢
        cases r <;> rfl
      · simp [dashStep, hshow] at h
    | cancel =>
      by_cases hshow : s.showDisclaimer = true
      · simp [dashStep, hshow, handleDisclaimerCancel] at h
      · simp [dashStep, hshow] at h

theorem export_gated_on_disclaimer_witness :
    initDashboard.disclaimerAcknowledged = false ∧
    handleDownloadClick initDashboard true "detail"
      = ({ initDashboard with showDisclaimer := true }, 0) :=
  ⟨rfl, export_gated_on_disclaimer.1 initDashboard true "detail" rfl⟩

/-! ## C10 — the 10 MiB upload limit -/

/-- **C10** — Selecting a file larger than 10 MiB sets the error message
"File too large. Maximum size is 10MB." and clears the selected file;
selecting a file of at most 10 MiB stores it and clears status and error;
the pipeline runner returns immediately (no request) when no file is
selected; and any file the state ever stores is within the limit — so no
pipeline request is ever sent for an oversized file. -/
theorem oversized_file_never_runs (siteKey : String) :
    (∀ (s : WizardState) f, f.size > 10 * 1024 * 1024 →
      handleFileSelect s f
        = { s with error := some "File too large. Maximum size is 10MB.",
                   uploadFile := none }) ∧
    (∀ (s : WizardState) f, f.size ≤ 10 * 1024 * 1024 →
      handleFileSelect s f
        = { s with uploadFile := some f, uploadStatus := none,
                   error := none }) ∧
    (∀ (s : WizardState) r d evs, s.uploadFile = none →
      runPipelineStream siteKey s r d evs = (s, [])) ∧
    (∀ (s : WizardState) f g, (handleFileSelect s f).uploadFile = some g →
      g = f ∧ g.size ≤ 10 * 1024 * 1024) := by
  refine ⟨?_, ?_, ?_, ?_⟩
  · intro s f h
    unfold handleFileSelect
    rw [if_pos h]
  · intro s f h
    unfold handleFileSelect
    rw [if_neg (by omega)]
  · intro s r d evs h
    unfold runPipelineStream
    rw [h]
  · intro s f g h
    unfold handleFileSelect at h
    by_cases hsz : f.size > 10 * 1024 * 1024
    · rw [if_pos hsz] at h
      simp at h
    · rw [if_neg hsz] at h
      simp at h
      subst h
      exact ⟨rfl, by omega⟩

theorem oversized_file_never_runs_witness :
    ((10 * 1024 * 1024 + 1 : Nat) > 10 * 1024 * 1024) ∧
    handleFileSelect initWizard ⟨"big.pdf", 10 * 1024 * 1024 + 1⟩
      = { initWizard with
          error := some "File too large. Maximum size is 10MB.",
          uploadFile := none } ∧
    initWizard.uploadFile = none ∧
    runPipelineStream "" initWizard true "d" [] = (initWizard, []) :=
  ⟨by decide,
   (oversized_file_never_runs "").1 initWizard
     ⟨"big.pdf", 10 * 1024 * 1024 + 1⟩ (by decide),
   rfl,
   (oversized_file_never_runs "").2.2.1 initWizard true "d" [] rfl⟩
